import Mathlib

/-
  Verification of the euribor-prometheus-exporter core against its
  natural-language specification.

  Shallow embedding conventions:
  * Go float64 rates are modelled as rationals: every string the program
    parses denotes an exact decimal, and the claims only concern parse
    success/failure and exact decimal values.
  * Go `time.Time` values are modelled by the calendar date `GoDate`
    (year, month, day); wall-clock "now" is passed as an explicit argument.
  * Fallible Go functions returning `(T, error)` are modelled as
    `Except String T` (the string is the error message).
  * HTTP transport is not modelled: the adapters are embedded from the
    point where a decoded response body is in hand, and the orchestrator
    receives the per-maturity fetch outcomes as oracle functions.
-/

namespace Euribor

/-! ## Basic string helpers (models of the Go stdlib calls used) -/

/-- Models `strings.TrimSpace` on the character list of a string:
drop whitespace from both ends.  (Go trims Unicode white space; the
programs inputs only ever contain ASCII blanks, which
`Char.isWhitespace` covers.) -/
def trimChars (cs : List Char) : List Char :=
  ((cs.dropWhile Char.isWhitespace).reverse.dropWhile Char.isWhitespace).reverse

/-- Models `strings.TrimSpace` at `String` level. -/
def goTrim (s : String) : String :=
  ⟨trimChars s.data⟩

/-- Decimal digit test, mirroring the Go source test `r >= '0' && r <= '9'`
(which is also what `Char.isDigit` computes). -/
def isDigitCh (c : Char) : Bool :=
  c.isDigit

/-- Numeric value of a list of decimal digit characters,
most significant first. -/
def digitsToNat (cs : List Char) : Nat :=
  cs.foldl (fun a c => 10 * a + (c.toNat - 48)) 0

/-! ## parseRate (scraper.go)

`parseRate` strips percent signs and whitespace, turns decimal commas
into points, keeps only digits, `.` and `-`, and feeds the result to
`strconv.ParseFloat`. -/

/-- Models `strconv.ParseFloat` on an unsigned mantissa over the
alphabet that can reach it here (decimal digits and dots): a run of
digits, optionally followed by a dot and another run of digits, with at
least one digit overall.  Exponents, hex floats, infinities etc. are
unreachable because every letter has been filtered out beforehand. -/
def parseUnsigned? (cs : List Char) : Option ℚ :=
  let ip := cs.takeWhile isDigitCh
  let rest := cs.dropWhile isDigitCh
  if rest.isEmpty then
    if ip.isEmpty then none else some (digitsToNat ip)
  else if rest.head? = some '.' then
    let fp := rest.tail
    if fp.all isDigitCh && (!ip.isEmpty || !fp.isEmpty) then
      some (mkRat (digitsToNat ip * 10 ^ fp.length + digitsToNat fp) (10 ^ fp.length))
    else none
  else none

/-- Models `strconv.ParseFloat` on the alphabet reachable from
`parseRate` (digits, `.`, `-`): an optional leading minus followed by an
unsigned decimal mantissa. -/
def parseDecimal? (cs : List Char) : Option ℚ :=
  if cs.head? = some '-' then (parseUnsigned? cs.tail).map Rat.neg
  else parseUnsigned? cs

/-- The character filter of `parseRate`, mirroring the Go loop test
`(r >= '0' && r <= '9') || r == '.' || r == '-'`. -/
def isRateChar (c : Char) : Bool :=
  isDigitCh c || c == '.' || c == '-'

/-- The cleaning pipeline of `parseRate` (scraper.go): TrimSpace, remove
every `%` (`strings.Replace` with count -1), TrimSpace again, replace
every comma by a dot, then keep only digits, dots and minus signs. -/
def rateCleaned (s : String) : List Char :=
  let s1 := trimChars s.data
  let s2 := s1.filter (fun c => c != '%')
  let s3 := trimChars s2
  let s4 := s3.map (fun c => if c = ',' then '.' else c)
  s4.filter isRateChar

/-- `parseRate` from scraper.go: clean the string, fail if nothing
numeric is left, otherwise parse it as a (signed) decimal. -/
def parseRate (s : String) : Except String ℚ :=
  let cleaned := rateCleaned s
  if cleaned.isEmpty then .error "no numeric data found"
  else
    match parseDecimal? cleaned with
    | some q => .ok q
    | none => .error "cannot parse as float"

/-- True exactly on the success constructor of `Except`. -/
def exceptOk {ε α : Type} : Except ε α → Bool
  | .ok _ => true
  | .error _ => false

instance {ε α : Type} [DecidableEq ε] [DecidableEq α] : DecidableEq (Except ε α) := fun
  | .ok a, .ok b =>
    if h : a = b then .isTrue (congrArg Except.ok h)
    else .isFalse (fun hh => h (Except.ok.inj hh))
  | .ok _, .error _ => .isFalse (fun hh => Except.noConfusion hh)
  | .error _, .ok _ => .isFalse (fun hh => Except.noConfusion hh)
  | .error e, .error f =>
    if h : e = f then .isTrue (congrArg Except.error h)
    else .isFalse (fun hh => h (Except.error.inj hh))

/-! ### The grammar of valid signed decimals (spec side)

The specification characterises `parseRate` failure as "the residual
string is empty or is not a valid signed decimal".  We state that
grammar independently of the parser: an optional leading minus, then a
non-empty mixture of digits and at most one dot containing at least one
digit. -/

/-- An unsigned decimal mantissa: non-empty, only digits and dots, at
most one dot, and at least one digit. -/
def mantissaValid (cs : List Char) : Bool :=
  !cs.isEmpty && cs.all (fun c => isDigitCh c || c == '.')
    && decide (cs.count '.' ≤ 1) && cs.any isDigitCh

/-- A valid signed decimal: optional leading minus, then a valid
mantissa. -/
def validSignedDecimal (cs : List Char) : Bool :=
  if cs.head? = some '-' then mantissaValid cs.tail else mantissaValid cs

/-- Modelled from the claim wording, for comparison with the code: the
claim says the cleaning step "discards every character that is not a
digit, a dot, or a leading minus" (the code, by contrast, keeps a minus
sign at every position).  The other steps are as in the code. -/
def claimResidual (s : String) : List Char :=
  let t1 := trimChars s.data
  let t2 := if t1.getLast? = some '%' then t1.dropLast else t1
  let t3 := trimChars t2
  let t4 := t3.map (fun c => if c = ',' then '.' else c)
  match t4 with
  | '-' :: rest => '-' :: rest.filter (fun c => isDigitCh c || c == '.')
  | _ => t4.filter (fun c => isDigitCh c || c == '.')

/-! ## parseDate (scraper.go)

`parseDate` tries the source's fixed list of Go `time.Parse` layouts and
returns the first success.  We embed `time.Parse` restricted to the
eleven layouts that appear in the source: every layout is a token list
over two-digit (zero-padded) numerics, one-or-two-digit numerics,
four-digit years, month names and literal characters; a parse must
consume the whole input, and the resulting month and day are
range-checked as `time.Parse` does. -/

/-- A calendar date, modelling the (year, month, day) part of a Go
`time.Time`. -/
structure GoDate where
  year : Int
  month : Nat
  day : Nat
deriving DecidableEq, Repr

/-- Which date field a numeric layout token fills. -/
inductive DField where
  | month
  | day
deriving DecidableEq, Repr

/-- Tokens of the Go date layouts used by the source. -/
inductive DTok where
  /-- a zero-padded two-digit numeric element (layout "01" or "02") -/
  | num2 : DField → DTok
  /-- a one-or-two-digit numeric element (layout "1" or "2") -/
  | num : DField → DTok
  /-- a four-digit year (layout "2006") -/
  | year4 : DTok
  /-- an abbreviated month name (layout "Jan") -/
  | monAbbr : DTok
  /-- a full month name (layout "January") -/
  | monFull : DTok
  /-- a literal character that must match exactly -/
  | lit : Char → DTok
deriving DecidableEq, Repr

/-- ASCII lower-casing, modelling the case-insensitive name matching of
Go `time.Parse`. -/
def lowerAscii (c : Char) : Char :=
  if 'A' ≤ c ∧ c ≤ 'Z' then Char.ofNat (c.toNat + 32) else c

/-- Matches `pat` (already lower case) case-insensitively as a prefix of
`cs` and returns the rest of `cs`. -/
def matchPrefixCI : List Char → List Char → Option (List Char)
  | [], rest => some rest
  | _ :: _, [] => none
  | p :: ps, c :: rest => if lowerAscii c = p then matchPrefixCI ps rest else none

/-- The month names (lower-cased), tried in calendar order as Go's
name lookup does; the result is the month number and the rest of the
input. -/
def lookupMonthAux : List (List Char) → Nat → List Char → Option (Nat × List Char)
  | [], _, _ => none
  | n :: ns, i, cs =>
    match matchPrefixCI n cs with
    | some rest => some (i, rest)
    | none => lookupMonthAux ns (i + 1) cs

def shortMonthNames : List (List Char) :=
  [['j','a','n'], ['f','e','b'], ['m','a','r'], ['a','p','r'], ['m','a','y'],
   ['j','u','n'], ['j','u','l'], ['a','u','g'], ['s','e','p'], ['o','c','t'],
   ['n','o','v'], ['d','e','c']]

def longMonthNames : List (List Char) :=
  [['j','a','n','u','a','r','y'], ['f','e','b','r','u','a','r','y'],
   ['m','a','r','c','h'], ['a','p','r','i','l'], ['m','a','y'],
   ['j','u','n','e'], ['j','u','l','y'], ['a','u','g','u','s','t'],
   ['s','e','p','t','e','m','b','e','r'], ['o','c','t','o','b','e','r'],
   ['n','o','v','e','m','b','e','r'], ['d','e','c','e','m','b','e','r']]

/-- Store a parsed numeric element into the month or day field. -/
def setDField (f : DField) (v : Nat) (m d : Nat) : Nat × Nat :=
  match f with
  | .month => (v, d)
  | .day => (m, v)

/-- Runs a layout token list over the input characters, threading the
(year, month, day) being built (Go defaults: year 0, January 1).  The
whole input must be consumed. -/
def runToks : List DTok → List Char → Int → Nat → Nat → Option (Int × Nat × Nat)
  | [], cs, y, m, d => if cs.isEmpty then some (y, m, d) else none
  | DTok.lit c :: ts, cs, y, m, d =>
    match cs with
    | c2 :: rest => if c2 = c then runToks ts rest y m d else none
    | [] => none
  | DTok.year4 :: ts, cs, _, m, d =>
    match cs with
    | a :: b :: c :: e :: rest =>
      if isDigitCh a && isDigitCh b && isDigitCh c && isDigitCh e then
        runToks ts rest (Int.ofNat (digitsToNat [a, b, c, e])) m d
      else none
    | _ => none
  | DTok.num2 f :: ts, cs, y, m, d =>
    match cs with
    | a :: b :: rest =>
      if isDigitCh a && isDigitCh b then
        let (m2, d2) := setDField f (digitsToNat [a, b]) m d
        runToks ts rest y m2 d2
      else none
    | _ => none
  | DTok.num f :: ts, cs, y, m, d =>
    match cs with
    | a :: b :: rest =>
      if isDigitCh a then
        if isDigitCh b then
          let (m2, d2) := setDField f (digitsToNat [a, b]) m d
          runToks ts rest y m2 d2
        else
          let (m2, d2) := setDField f (digitsToNat [a]) m d
          runToks ts (b :: rest) y m2 d2
      else none
    | [a] =>
      if isDigitCh a then
        let (m2, d2) := setDField f (digitsToNat [a]) m d
        runToks ts [] y m2 d2
      else none
    | [] => none
  | DTok.monAbbr :: ts, cs, y, _, d =>
    match lookupMonthAux shortMonthNames 1 cs with
    | some (mo, rest) => runToks ts rest y mo d
    | none => none
  | DTok.monFull :: ts, cs, y, _, d =>
    match lookupMonthAux longMonthNames 1 cs with
    | some (mo, rest) => runToks ts rest y mo d
    | none => none

/-- Gregorian leap-year rule, as in Go's `isLeap`. -/
def isLeap (y : Int) : Bool :=
  y % 4 = 0 && (y % 100 != 0 || y % 400 = 0)

/-- Days in a month, as in Go's `daysIn` (0 for an out-of-range month,
which can never pass the range check). -/
def daysInMonth (y : Int) (m : Nat) : Nat :=
  match m with
  | 1 => 31 | 2 => if isLeap y then 29 else 28 | 3 => 31 | 4 => 30
  | 5 => 31 | 6 => 30 | 7 => 31 | 8 => 31
  | 9 => 30 | 10 => 31 | 11 => 30 | 12 => 31
  | _ => 0

/-- Runs one layout over a string, with the month and day-of-month
range checks `time.Parse` performs. -/
def runLayout (toks : List DTok) (s : String) : Option GoDate :=
  match runToks toks s.data 0 1 1 with
  | some (y, m, d) =>
    if 1 ≤ m && m ≤ 12 && 1 ≤ d && d ≤ daysInMonth y m then
      some ⟨y, m, d⟩
    else none
  | none => none

/-- The layout list of `parseDate` (scraper.go), in source order, each
with the layout string used in the source. -/
def dateFormats : List (String × List DTok) :=
  [("01/02/2006", [.num2 .month, .lit '/', .num2 .day, .lit '/', .year4]),
   ("02/01/2006", [.num2 .day, .lit '/', .num2 .month, .lit '/', .year4]),
   ("2006-01-02", [.year4, .lit '-', .num2 .month, .lit '-', .num2 .day]),
   ("02-01-2006", [.num2 .day, .lit '-', .num2 .month, .lit '-', .year4]),
   ("01-02-2006", [.num2 .month, .lit '-', .num2 .day, .lit '-', .year4]),
   ("2.1.2006", [.num .day, .lit '.', .num .month, .lit '.', .year4]),
   ("02.01.2006", [.num2 .day, .lit '.', .num2 .month, .lit '.', .year4]),
   ("Jan 2, 2006", [.monAbbr, .lit ' ', .num .day, .lit ',', .lit ' ', .year4]),
   ("2 Jan 2006", [.num .day, .lit ' ', .monAbbr, .lit ' ', .year4]),
   ("January 2, 2006", [.monFull, .lit ' ', .num .day, .lit ',', .lit ' ', .year4]),
   ("2 January 2006", [.num .day, .lit ' ', .monFull, .lit ' ', .year4])]

/-- The error text the loop in `parseDate` remembers for a failed
layout (Go keeps the `*time.ParseError`, which names the layout). -/
def layoutErr (name : String) : String :=
  "parsing time as " ++ name ++ " failed"

/-- The loop of `parseDate`: try each layout in order, return the first
success, remember the last failure. -/
def parseDateLoop : List (String × List DTok) → String → String → Except String GoDate
  | [], s, lastErr => .error ("could not parse date " ++ s ++ " : " ++ lastErr)
  | (nm, toks) :: rest, s, _ =>
    match runLayout toks s with
    | some d => .ok d
    | none => parseDateLoop rest s (layoutErr nm)

/-- `parseDate` from scraper.go: trim, then try the formats in order. -/
def parseDate (s : String) : Except String GoDate :=
  parseDateLoop dateFormats (goTrim s) ""

/-! ## extractData (scraper.go)

The HTML document is modelled as the list of its tables, each table by
whether it carries the marker class `table_historiek` and by its list of
data rows (the `tr` nodes of its body), each row being the list of the
text contents of its `td` cells.  The goquery selection
`table.table_historiek tbody tr` is then the concatenation of the rows
of the marker tables, and `table tr` the concatenation of all rows;
`.First()` is the head of the selection. -/

structure HtmlTable where
  /-- does the table carry the class `table_historiek`? -/
  marker : Bool
  /-- the data rows: each row is the list of its cell texts -/
  rows : List (List String)
deriving DecidableEq, Repr

/-- The selection `table.table_historiek tbody tr` in document order. -/
def markerRows (doc : List HtmlTable) : List (List String) :=
  ((doc.filter (·.marker)).map (·.rows)).flatten

/-- The selection `table tr` in document order. -/
def allRows (doc : List HtmlTable) : List (List String) :=
  (doc.map (·.rows)).flatten

/-- The body of the `.First().Each` callback in `extractData`: a first
row with at least two cells yields the trimmed (date, rate) cell pair,
anything else leaves `found` false. -/
def rowCellPair : Option (List String) → Option (String × String)
  | some cells =>
    if 2 ≤ cells.length then
      some (goTrim (cells.getD 0 ""), goTrim (cells.getD 1 ""))
    else none
  | none => none

/-- The two-strategy cell search of `extractData`: strategy 1 on the
marker-class selection, strategy 2 on the generic selection if strategy
1 left `found` false. -/
def extractCells (doc : List HtmlTable) : Option (String × String) :=
  match rowCellPair (markerRows doc).head? with
  | some p => some p
  | none => rowCellPair (allRows doc).head?

/-- Errors of `extractData`. -/
inductive ExtractErr where
  /-- "could not find rate data in HTML" -/
  | noData
  /-- "failed to parse rate ...: ...", wrapping the `parseRate` error -/
  | rateParse (raw msg : String)
deriving DecidableEq, Repr

/-- `extractData` from scraper.go: locate the (date, rate) cells, parse
the rate (fatal on failure), parse the date (falling back to the
current wall-clock time `now` on failure). -/
def extractData (doc : List HtmlTable) (now : GoDate) :
    Except ExtractErr (ℚ × GoDate) :=
  match extractCells doc with
  | none => .error .noData
  | some (dateStr, rateStr) =>
    match parseRate rateStr with
    | .error e => .error (.rateParse rateStr e)
    | .ok rate =>
      match parseDate dateStr with
      | .ok pubDate => .ok (rate, pubDate)
      | .error _ => .ok (rate, now)

/-! ## FetchRateFromECB (main.go)

The decoded ECB JSON response is modelled structurally; JSON maps are
association lists (Go map iteration order is arbitrary, and the only
loop over a map — the latest-key search — is order-independent because
it computes a maximum). -/

structure ECBSeries where
  observations : List (String × List ℚ)
deriving DecidableEq, Repr

structure ECBDataSet where
  series : List (String × ECBSeries)
deriving DecidableEq, Repr

structure ECBDimValue where
  id : String
deriving DecidableEq, Repr

structure ECBDimension where
  values : List ECBDimValue
deriving DecidableEq, Repr

structure ECBDimensions where
  observation : List ECBDimension
deriving DecidableEq, Repr

structure ECBStructure where
  dimensions : ECBDimensions
deriving DecidableEq, Repr

structure ECBResponse where
  dataSets : List ECBDataSet
  /-- the JSON field named `structure` -/
  struct : ECBStructure
deriving DecidableEq, Repr

/-- Key lookup in an association list, modelling a Go map read. -/
def findKey {α : Type} : List (String × α) → String → Option α
  | [], _ => none
  | (k, v) :: rest, key => if k = key then some v else findKey rest key

/-- The maturity-code table `maturities` of main.go (the ECB lookup
table). -/
def ecbMaturities : List (String × String) :=
  [("1M", "1MD_"), ("3M", "3MD_"), ("6M", "6MD_"), ("12M", "1YD_")]

/-- The series key the response is probed for. -/
def ecbSeriesKey : String := "0:0:0:0:0:0:0"

/-- Lexicographic comparison of character lists by code point, the
order Go uses on strings (byte order, which agrees with code-point
order on the ASCII keys the ECB API produces). -/
def strLtAux : List Char → List Char → Bool
  | [], [] => false
  | [], _ :: _ => true
  | _ :: _, [] => false
  | a :: as, b :: bs =>
    if a.toNat < b.toNat then true
    else if a.toNat = b.toNat then strLtAux as bs
    else false

/-- Go string comparison `a < b`. -/
def strLt (a b : String) : Bool :=
  strLtAux a.data b.data

/-- One iteration of the latest-observation search of
`FetchRateFromECB`: `if latestKey == "" || key > latestKey { latestKey = key }`. -/
def latestStep (acc : String) (kv : String × List ℚ) : String :=
  if acc = "" ∨ strLt acc kv.1 = true then kv.1 else acc

/-- The latest-observation search of `FetchRateFromECB`: the loop above
over the observation map (order-independent: it computes the greatest
key). -/
def latestObsKey (obs : List (String × List ℚ)) : String :=
  obs.foldl latestStep ""

/-- Models `time.Parse("2006-01", s)`: a four-digit year, a dash and a
zero-padded two-digit month. -/
def parseYearMonth (s : String) : Option (Int × Nat) :=
  match runLayout [DTok.year4, DTok.lit '-', DTok.num2 DField.month] s with
  | some d => some (d.year, d.month)
  | none => none

/-- Models the source expression
`time.Date(y, m+1, 0, 0, 0, 0, 0, time.UTC)` for a month `1 ≤ m ≤ 12`:
day 0 of month m+1 normalizes to the last day of month m (for m = 12,
month 13 normalizes to January of y+1, whose day 0 is December 31
of y). -/
def lastDayOfMonthDate (y : Int) (m : Nat) : GoDate :=
  if m = 12 then ⟨y, 12, 31⟩ else ⟨y, m, daysInMonth y m⟩

/-- `FetchRateFromECB` from main.go, from the point where the decoded
response body is in hand (transport and JSON decoding are external);
`now` models `time.Now()`. -/
def FetchRateFromECB (maturity : String) (resp : ECBResponse) (now : GoDate) :
    Except String (ℚ × GoDate) :=
  match findKey ecbMaturities maturity with
  | none => .error "invalid maturity"
  | some _ =>
    match resp.dataSets with
    | [] => .error "no datasets in response"
    | ds :: _ =>
      match findKey ds.series ecbSeriesKey with
      | none => .error "series not found in response"
      | some ser =>
        if ser.observations.isEmpty then .error "no observations in series"
        else
          match (findKey ser.observations (latestObsKey ser.observations)).getD [] with
          | [] => .error "observation is empty"
          | rate :: _ =>
            let pubDate :=
              match resp.struct.dimensions.observation with
              | [] => now
              | timeDim :: _ =>
                match timeDim.values.getLast? with
                | none => now
                | some dv =>
                  match parseYearMonth dv.id with
                  | none => now
                  | some (y, m) => lastDayOfMonthDate y m
            .ok (rate, pubDate)

/-! ## The orchestrator (main.go)

`UpdateMetrics` walks the supported maturities, always runs the daily
web fetch and, when the ECB source is enabled, the ECB fetch.  The
Prometheus gauge vectors are modelled as partial maps from the maturity
label to the last value set; the per-maturity fetch outcomes and
measured durations enter as oracle functions (they are the results of
the network calls, which are external).  Publication dates enter the
gauges as epoch seconds (`pubDate.Unix()`); at this level the converted
number is part of the fetch oracle's output. -/

/-- The gauge families the program registers, keyed by maturity label.
`none` means the gauge vector has no value for that label yet. -/
structure MetricsState where
  /-- euribor_rate_percent (ECB source) -/
  rate : String → Option ℚ
  /-- euribor_last_update_timestamp (registered, never set) -/
  lastUpdate : String → Option ℚ
  /-- euribor_last_publication_date (ECB source) -/
  pubDate : String → Option ℚ
  /-- euribor_scrape_duration_seconds (ECB source) -/
  scrapeDuration : String → Option ℚ
  /-- euribor_scrape_success (ECB source) -/
  scrapeSuccess : String → Option ℚ
  /-- euribor_daily_rate_percent (web source) -/
  dailyRate : String → Option ℚ
  /-- euribor_daily_publication_date_timestamp (web source) -/
  dailyPubDate : String → Option ℚ
  /-- euribor_daily_scrape_success (web source) -/
  dailySuccess : String → Option ℚ
  /-- euribor_daily_scrape_duration_seconds (web source) -/
  dailyDuration : String → Option ℚ

/-- `gauge.WithLabelValues(m).Set(v)`. -/
def setG (g : String → Option ℚ) (m : String) (v : ℚ) : String → Option ℚ :=
  fun x => if x = m then some v else g x

/-- A fetch oracle: for a maturity, either an error or the fetched
(rate, publication date as epoch seconds). -/
abbrev FetchFn := String → Except String (ℚ × ℚ)

/-- `updateDailyMetrics` from main.go: always set the duration gauge;
on failure set success to 0 and return; on success set rate,
publication date and success to 1. -/
def updateDailyMetrics (fetch : FetchFn) (dur : String → ℚ) (m : String)
    (st : MetricsState) : MetricsState :=
  let st1 := { st with dailyDuration := setG st.dailyDuration m (dur m) }
  match fetch m with
  | .error _ => { st1 with dailySuccess := setG st1.dailySuccess m 0 }
  | .ok (rate, pub) =>
    { st1 with
      dailyRate := setG st1.dailyRate m rate
      dailyPubDate := setG st1.dailyPubDate m pub
      dailySuccess := setG st1.dailySuccess m 1 }

/-- `updateECBMetrics` from main.go: skip (without touching any gauge)
when the maturity is not in the ECB table; otherwise set the duration
gauge, then either success=0 on failure or rate, publication date and
success=1 on success.  The boolean reports whether `FetchRateFromECB`
was invoked. -/
def updateECBMetrics (fetch : FetchFn) (dur : String → ℚ) (m : String)
    (st : MetricsState) : MetricsState × Bool :=
  match findKey ecbMaturities m with
  | none => (st, false)
  | some _ =>
    let st1 := { st with scrapeDuration := setG st.scrapeDuration m (dur m) }
    match fetch m with
    | .error _ => ({ st1 with scrapeSuccess := setG st1.scrapeSuccess m 0 }, true)
    | .ok (rate, pub) =>
      ({ st1 with
          rate := setG st1.rate m rate
          pubDate := setG st1.pubDate m pub
          scrapeSuccess := setG st1.scrapeSuccess m 1 }, true)

/-- The maturity-to-URL table of the scraper (`maturityURLs`); the
claims only need its key set. -/
def maturityURLs : List (String × String) :=
  [("1W", "/5/euribor-rate-1-week/"),
   ("1M", "/1/euribor-rate-1-month/"),
   ("3M", "/2/euribor-rate-3-months/"),
   ("6M", "/3/euribor-rate-6-months/"),
   ("12M", "/4/euribor-rate-12-months/")]

/-- `GetSupportedMaturities` from scraper.go: the keys of
`maturityURLs` (Go map iteration order is arbitrary; the claims about
the orchestrator are membership statements, insensitive to the order
chosen here). -/
def GetSupportedMaturities : List String :=
  maturityURLs.map Prod.fst

/-- The two upstream sources. -/
inductive Source where
  | web
  | ecb
deriving DecidableEq, Repr

/-- The loop body of `UpdateMetrics` over a list of maturities,
returning the final gauge state and the trace of upstream fetch
invocations (one `(web, m)` per `FetchRateFromWeb` call, one `(ecb, m)`
per `FetchRateFromECB` call). -/
def runPass (fw : FetchFn) (dw : String → ℚ) (fe : FetchFn) (de : String → ℚ)
    (enabled : Bool) : List String → MetricsState →
    MetricsState × List (Source × String)
  | [], st => (st, [])
  | m :: rest, st =>
    let st1 := updateDailyMetrics fw dw m st
    let p := if enabled then updateECBMetrics fe de m st1 else (st1, false)
    let r := runPass fw dw fe de enabled rest p.1
    (r.1, (Source.web, m) :: ((if p.2 then [(Source.ecb, m)] else []) ++ r.2))

/-- `UpdateMetrics` from main.go: one orchestrator pass over the
supported maturities. -/
def UpdateMetrics (fw : FetchFn) (dw : String → ℚ) (fe : FetchFn)
    (de : String → ℚ) (enabled : Bool) (st : MetricsState) :
    MetricsState × List (Source × String) :=
  runPass fw dw fe de enabled GetSupportedMaturities st

/-! ## Fixtures and proof-side descriptions -/

/-- The error text left in `lastErr` after a whole run of the
`parseDate` loop over `fmts` fails, starting from `e`. -/
def lastErrAux : List (String × List DTok) → String → String
  | [], e => e
  | f :: rest, _ => lastErrAux rest (layoutErr f.1)

/-- An ECB response wrapping the given observation map under the series
key the program probes, with the given dimension metadata. -/
def mkECBResp (obs : List (String × List ℚ)) (dims : List ECBDimension) :
    ECBResponse :=
  { dataSets := [{ series := [(ecbSeriesKey, { observations := obs })] }],
    struct := { dimensions := { observation := dims } } }

/-- A dimension whose period labels are the given strings. -/
def mkDim (ids : List String) : ECBDimension :=
  ⟨ids.map ECBDimValue.mk⟩

/-- A sample observation map with three period keys. -/
def demoObs : List (String × List ℚ) :=
  [("2025-09", [mkRat 21 10]), ("2025-10", [mkRat 26 10]),
   ("2025-11", [mkRat 31 10])]

/-- A sample wall-clock instant. -/
def demoNow : GoDate := ⟨2026, 1, 1⟩

/-- A document whose only table carries the marker class. -/
def demoDocMarker : List HtmlTable := [⟨true, [["12/13/2025", "2.524 %"]]⟩]

/-- A document with one generic (non-marker) table. -/
def demoDocPlain : List HtmlTable := [⟨false, [["12/13/2025", "2.524 %"]]⟩]

/-- A document whose only row has a single cell. -/
def demoDocShortRow : List HtmlTable := [⟨false, [["lonely"]]⟩]

/-- A marker table whose date cell does not parse. -/
def demoDocBadDate : List HtmlTable := [⟨true, [["nonsense", "2.524 %"]]⟩]

/-- A marker table whose rate cell does not parse. -/
def demoDocBadRate : List HtmlTable := [⟨true, [["12/13/2025", "abc"]]⟩]

/-- A fetch oracle that always fails. -/
def demoFailFetch : FetchFn := fun _ => .error "connection refused"

/-- A constant duration oracle. -/
def demoDur : String → ℚ := fun _ => mkRat 1 2

/-- The gauge state at process start: nothing observed yet. -/
def initMetrics : MetricsState :=
  ⟨fun _ => none, fun _ => none, fun _ => none, fun _ => none, fun _ => none,
   fun _ => none, fun _ => none, fun _ => none, fun _ => none⟩

/-! ## Claim C4: parseRate on the representative inputs -/

/-- C4: `parseRate` succeeds with the exact expected value on the
representative inputs "2.524 %" (2.524), "2,524%" (2.524), "-0.123 %"
(-0.123) and "0.000 %" (0.0), and fails on "invalid" and on the empty
string. -/
theorem parseRate_representative_values :
    parseRate "2.524 %" = .ok (mkRat 2524 1000)
  ∧ parseRate "2,524%" = .ok (mkRat 2524 1000)
  ∧ parseRate "-0.123 %" = .ok (mkRat (-123) 1000)
  ∧ parseRate "0.000 %" = .ok (mkRat 0 1000)
  ∧ mkRat 2524 1000 = (2.524 : ℚ)
  ∧ mkRat (-123) 1000 = (-0.123 : ℚ)
  ∧ mkRat 0 1000 = (0 : ℚ)
  ∧ exceptOk (parseRate "invalid") = false
  ∧ exceptOk (parseRate "") = false := by
  refine ⟨by decide, by decide, by decide, by decide, ?_, ?_, ?_, by decide, by decide⟩
  · rw [Rat.mkRat_eq_div]; norm_num
  · rw [Rat.mkRat_eq_div]; norm_num
  · rw [Rat.mkRat_eq_div]; norm_num

/-! ## Claim C2: the two extraction strategies -/

/-- C2: extraction first takes the first data row of the marker-class
selection when it has at least two cells; when no marker table exists it
falls back to the first generic row with the same column assignment;
when neither strategy yields two cells it fails with the
could-not-find-rate-data error. -/
theorem extractData_strategy_order :
    (∀ (doc : List HtmlTable) (cells : List String),
        (markerRows doc).head? = some cells → 2 ≤ cells.length →
        extractCells doc = some (goTrim (cells.getD 0 ""), goTrim (cells.getD 1 "")))
  ∧ (∀ (doc : List HtmlTable) (cells : List String),
        (∀ t ∈ doc, t.marker = false) →
        (allRows doc).head? = some cells → 2 ≤ cells.length →
        extractCells doc = some (goTrim (cells.getD 0 ""), goTrim (cells.getD 1 "")))
  ∧ (∀ (doc : List HtmlTable) (now : GoDate),
        rowCellPair (markerRows doc).head? = none →
        rowCellPair (allRows doc).head? = none →
        extractData doc now = .error .noData) := by
  refine ⟨?_, ?_, ?_⟩
  · intro doc cells h1 h2
    simp [extractCells, rowCellPair, h1, h2]
  · intro doc cells hmark h1 h2
    have hfilter : doc.filter (·.marker) = [] :=
      List.filter_eq_nil_iff.mpr (by intro t ht; simp [hmark t ht])
    simp [extractCells, markerRows, hfilter, rowCellPair, h1, h2]
  · intro doc now h1 h2
    simp [extractData, extractCells, h1, h2]

/-- Concrete instances of the three branches of
`extractData_strategy_order`. -/
theorem extractData_strategy_order_witness :
    extractCells demoDocMarker = some ("12/13/2025", "2.524 %")
  ∧ extractCells demoDocPlain = some ("12/13/2025", "2.524 %")
  ∧ extractData demoDocShortRow demoNow = .error .noData := by
  refine ⟨?_, ?_, ?_⟩
  · exact (extractData_strategy_order.1 demoDocMarker ["12/13/2025", "2.524 %"]
      (by decide) (by decide)).trans (by decide)
  · exact (extractData_strategy_order.2.1 demoDocPlain ["12/13/2025", "2.524 %"]
      (by decide) (by decide) (by decide)).trans (by decide)
  · exact extractData_strategy_order.2.2 demoDocShortRow demoNow (by decide) (by decide)

/-! ## Claim C6: rate-parse failures are fatal, date-parse failures are not -/

/-- C6: once the cells are located, a rate-parse failure fails the whole
call with an error wrapping the parser error, while a date-parse failure
still succeeds and substitutes the current wall-clock time for the
publication date. -/
theorem extractData_parse_policy :
    ∀ (doc : List HtmlTable) (now : GoDate) (dateStr rateStr : String),
      extractCells doc = some (dateStr, rateStr) →
      ((∀ e, parseRate rateStr = .error e →
          extractData doc now = .error (.rateParse rateStr e))
      ∧ (∀ q, parseRate rateStr = .ok q → exceptOk (parseDate dateStr) = false →
          extractData doc now = .ok (q, now))) := by
  intro doc now dateStr rateStr hcells
  constructor
  · intro e he
    simp [extractData, hcells, he]
  · intro q hq hd
    cases hdate : parseDate dateStr with
    | ok d => rw [hdate] at hd; simp [exceptOk] at hd
    | error e => simp [extractData, hcells, hq, hdate]

/-- Concrete instances of both branches of `extractData_parse_policy`. -/
theorem extractData_parse_policy_witness :
    extractData demoDocBadRate demoNow = .error (.rateParse "abc" "no numeric data found")
  ∧ extractData demoDocBadDate demoNow = .ok (mkRat 2524 1000, demoNow) := by
  constructor
  · exact (extractData_parse_policy demoDocBadRate demoNow "12/13/2025" "abc"
      (by decide)).1 "no numeric data found" (by decide)
  · exact (extractData_parse_policy demoDocBadDate demoNow "nonsense" "2.524 %"
      (by decide)).2 (mkRat 2524 1000) (by decide) (by decide)

/-! ## Orchestrator helper lemmas -/

lemma setG_ne {g : String → Option ℚ} {m x : String} (v : ℚ) (h : x ≠ m) :
    setG g m v x = g x := by
  simp [setG, h]

lemma updateDailyMetrics_ecb_frame (fw : FetchFn) (dw : String → ℚ)
    (m : String) (st : MetricsState) :
    (updateDailyMetrics fw dw m st).rate = st.rate
  ∧ (updateDailyMetrics fw dw m st).pubDate = st.pubDate
  ∧ (updateDailyMetrics fw dw m st).scrapeSuccess = st.scrapeSuccess
  ∧ (updateDailyMetrics fw dw m st).scrapeDuration = st.scrapeDuration
  ∧ (updateDailyMetrics fw dw m st).lastUpdate = st.lastUpdate := by
  cases hfw : fw m with
  | error e => simp [updateDailyMetrics, hfw]
  | ok v => obtain ⟨r, p⟩ := v; simp [updateDailyMetrics, hfw]

lemma updateECBMetrics_lastUpdate (fe : FetchFn) (de : String → ℚ)
    (m : String) (st : MetricsState) :
    ((updateECBMetrics fe de m st).1).lastUpdate = st.lastUpdate := by
  cases hk : findKey ecbMaturities m with
  | none => simp [updateECBMetrics, hk]
  | some c =>
    cases hfe : fe m with
    | error e => simp [updateECBMetrics, hk, hfe]
    | ok v => obtain ⟨r, p⟩ := v; simp [updateECBMetrics, hk, hfe]

lemma updateECBMetrics_skip (fe : FetchFn) (de : String → ℚ) (m : String)
    (st : MetricsState) (h : findKey ecbMaturities m = none) :
    updateECBMetrics fe de m st = (st, false) := by
  simp [updateECBMetrics, h]

lemma updateECBMetrics_other (fe : FetchFn) (de : String → ℚ)
    {m x : String} (st : MetricsState) (h : x ≠ m) :
    ((updateECBMetrics fe de m st).1).rate x = st.rate x
  ∧ ((updateECBMetrics fe de m st).1).pubDate x = st.pubDate x
  ∧ ((updateECBMetrics fe de m st).1).scrapeSuccess x = st.scrapeSuccess x
  ∧ ((updateECBMetrics fe de m st).1).scrapeDuration x = st.scrapeDuration x := by
  cases hk : findKey ecbMaturities m with
  | none => simp [updateECBMetrics, hk]
  | some c =>
    cases hfe : fe m with
    | error e => simp [updateECBMetrics, hk, hfe, setG_ne _ h]
    | ok v => obtain ⟨r, p⟩ := v; simp [updateECBMetrics, hk, hfe, setG_ne _ h]

lemma runPass_lastUpdate (fw : FetchFn) (dw : String → ℚ) (fe : FetchFn)
    (de : String → ℚ) (enabled : Bool) :
    ∀ (ms : List String) (st : MetricsState),
      (runPass fw dw fe de enabled ms st).1.lastUpdate = st.lastUpdate := by
  intro ms
  induction ms with
  | nil => intro st; rfl
  | cons m rest ih =>
    intro st
    have hd := (updateDailyMetrics_ecb_frame fw dw m st).2.2.2.2
    cases enabled with
    | false =>
      simp only [runPass, ih]
      simpa using hd
    | true =>
      simp only [runPass, ih]
      simp only [if_true]
      rw [updateECBMetrics_lastUpdate, hd]

lemma runPass_ecb_frame (fw : FetchFn) (dw : String → ℚ) (fe : FetchFn)
    (de : String → ℚ) (enabled : Bool) (x : String)
    (hx : findKey ecbMaturities x = none) :
    ∀ (ms : List String) (st : MetricsState),
      (runPass fw dw fe de enabled ms st).1.rate x = st.rate x
    ∧ (runPass fw dw fe de enabled ms st).1.pubDate x = st.pubDate x
    ∧ (runPass fw dw fe de enabled ms st).1.scrapeSuccess x = st.scrapeSuccess x
    ∧ (runPass fw dw fe de enabled ms st).1.scrapeDuration x = st.scrapeDuration x := by
  intro ms
  induction ms with
  | nil => intro st; exact ⟨rfl, rfl, rfl, rfl⟩
  | cons m rest ih =>
    intro st
    have hd := updateDailyMetrics_ecb_frame fw dw m st
    have hstep : ∀ st1 : MetricsState,
        ((if enabled then updateECBMetrics fe de m st1 else (st1, false)).1).rate x = st1.rate x
      ∧ ((if enabled then updateECBMetrics fe de m st1 else (st1, false)).1).pubDate x = st1.pubDate x
      ∧ ((if enabled then updateECBMetrics fe de m st1 else (st1, false)).1).scrapeSuccess x = st1.scrapeSuccess x
      ∧ ((if enabled then updateECBMetrics fe de m st1 else (st1, false)).1).scrapeDuration x = st1.scrapeDuration x := by
      intro st1
      cases enabled with
      | false => exact ⟨rfl, rfl, rfl, rfl⟩
      | true =>
        simp only [if_true]
        by_cases hxm : x = m
        · subst hxm
          rw [updateECBMetrics_skip fe de x st1 hx]
          exact ⟨rfl, rfl, rfl, rfl⟩
        · exact updateECBMetrics_other fe de st1 hxm
    simp only [runPass]
    obtain ⟨i1, i2, i3, i4⟩ := ih ((if enabled then updateECBMetrics fe de m (updateDailyMetrics fw dw m st) else (updateDailyMetrics fw dw m st, false)).1)
    obtain ⟨s1, s2, s3, s4⟩ := hstep (updateDailyMetrics fw dw m st)
    exact ⟨by rw [i1, s1, hd.1], by rw [i2, s2, hd.2.1],
           by rw [i3, s3, hd.2.2.1], by rw [i4, s4, hd.2.2.2.1]⟩

/-! ## Claim C1: a failed fetch updates only success and duration -/

/-- C1: for either source, when the fetch for a maturity fails the pass
sets that maturity's success gauge to 0 and its duration gauge to the
measured duration, and leaves that source's rate and publication-date
gauges untouched. -/
theorem update_failure_frame :
    ∀ (fw fe : FetchFn) (dw de : String → ℚ) (m : String) (st : MetricsState),
      (exceptOk (fw m) = false →
        ((updateDailyMetrics fw dw m st).dailySuccess m = some 0
      ∧ (updateDailyMetrics fw dw m st).dailyDuration m = some (dw m)
      ∧ (updateDailyMetrics fw dw m st).dailyRate = st.dailyRate
      ∧ (updateDailyMetrics fw dw m st).dailyPubDate = st.dailyPubDate))
    ∧ ((findKey ecbMaturities m).isSome = true → exceptOk (fe m) = false →
        (((updateECBMetrics fe de m st).1).scrapeSuccess m = some 0
      ∧ ((updateECBMetrics fe de m st).1).scrapeDuration m = some (de m)
      ∧ ((updateECBMetrics fe de m st).1).rate = st.rate
      ∧ ((updateECBMetrics fe de m st).1).pubDate = st.pubDate)) := by
  intro fw fe dw de m st
  constructor
  · intro hfail
    cases hfw : fw m with
    | ok v => rw [hfw] at hfail; simp [exceptOk] at hfail
    | error e => simp [updateDailyMetrics, hfw, setG]
  · intro hmem hfail
    cases hk : findKey ecbMaturities m with
    | none => rw [hk] at hmem; simp at hmem
    | some c =>
      cases hfe : fe m with
      | ok v => rw [hfe] at hfail; simp [exceptOk] at hfail
      | error e => simp [updateECBMetrics, hk, hfe, setG]

/-- Concrete instance of `update_failure_frame` for a failing fetch of
the 3M maturity. -/
theorem update_failure_frame_witness :
    (updateDailyMetrics demoFailFetch demoDur "3M" initMetrics).dailySuccess "3M" = some 0
  ∧ ((updateECBMetrics demoFailFetch demoDur "3M" initMetrics).1).scrapeSuccess "3M" = some 0 := by
  have h := update_failure_frame demoFailFetch demoFailFetch demoDur demoDur "3M" initMetrics
  exact ⟨(h.1 (by decide)).1, (h.2 (by decide) (by decide)).1⟩

/-! ## Claim C10: the last-update gauge is never written -/

/-- C10: no metric-updating operation of the program ever sets the
registered gauge euribor_last_update_timestamp: both per-source update
helpers and a whole orchestrator pass leave it exactly as it was, so it
retains no observation for the process lifetime. -/
theorem lastUpdate_never_written :
    ∀ (fw fe : FetchFn) (dw de : String → ℚ) (enabled : Bool) (m : String)
      (ms : List String) (st : MetricsState),
      (updateDailyMetrics fw dw m st).lastUpdate = st.lastUpdate
    ∧ ((updateECBMetrics fe de m st).1).lastUpdate = st.lastUpdate
    ∧ (runPass fw dw fe de enabled ms st).1.lastUpdate = st.lastUpdate
    ∧ (UpdateMetrics fw dw fe de enabled st).1.lastUpdate = st.lastUpdate := by
  intro fw fe dw de enabled m ms st
  exact ⟨(updateDailyMetrics_ecb_frame fw dw m st).2.2.2.2,
         updateECBMetrics_lastUpdate fe de m st,
         runPass_lastUpdate fw dw fe de enabled ms st,
         runPass_lastUpdate fw dw fe de enabled GetSupportedMaturities st⟩

/-! ## Claim C5: date layout priority -/

lemma parseDateLoop_eq (s : String) :
    ∀ (fmts : List (String × List DTok)) (e : String),
      parseDateLoop fmts s e =
        match fmts.findSome? (fun p => runLayout p.2 s) with
        | some d => .ok d
        | none => .error ("could not parse date " ++ s ++ " : " ++ lastErrAux fmts e) := by
  intro fmts
  induction fmts with
  | nil => intro e; rfl
  | cons f rest ih =>
    intro e
    obtain ⟨nm, toks⟩ := f
    cases h : runLayout toks s with
    | some d => simp [parseDateLoop, List.findSome?, h]
    | none => simp [parseDateLoop, List.findSome?, h, ih, lastErrAux]

/-- C5: `parseDate` tries the fixed layout list in source order and
returns the first successful match, so "03/04/2025", valid under both
the US-slash and the EU-slash layout, is read by the US layout (March
4); when every layout fails, the error carries the last layout's
failure, as for "invalid" and the empty string. -/
theorem parseDate_format_priority :
    (∀ s : String, parseDate s =
        match dateFormats.findSome? (fun p => runLayout p.2 (goTrim s)) with
        | some d => .ok d
        | none => .error ("could not parse date " ++ goTrim s ++ " : "
            ++ layoutErr "2 January 2006"))
  ∧ runLayout [DTok.num2 .month, .lit '/', .num2 .day, .lit '/', .year4]
      "03/04/2025" = some ⟨2025, 3, 4⟩
  ∧ runLayout [DTok.num2 .day, .lit '/', .num2 .month, .lit '/', .year4]
      "03/04/2025" = some ⟨2025, 4, 3⟩
  ∧ parseDate "03/04/2025" = .ok ⟨2025, 3, 4⟩
  ∧ parseDate "invalid" = .error ("could not parse date invalid : "
      ++ layoutErr "2 January 2006")
  ∧ parseDate "" = .error ("could not parse date  : "
      ++ layoutErr "2 January 2006") := by
  refine ⟨?_, by decide, by decide, by decide, by decide, by decide⟩
  intro s
  have h := parseDateLoop_eq (goTrim s) dateFormats ""
  have hlast : lastErrAux dateFormats "" = layoutErr "2 January 2006" := by decide
  rw [hlast] at h
  exact h

/-! ## Claim C7: lexicographically greatest observation key -/

lemma strLtAux_irrefl : ∀ cs : List Char, strLtAux cs cs = false := by
  intro cs
  induction cs with
  | nil => rfl
  | cons a t ih => simp [strLtAux, ih]

lemma strLtAux_nil_right : ∀ cs : List Char, strLtAux cs [] = false := by
  intro cs
  cases cs <;> rfl

lemma strLtAux_nil_left {cs : List Char} (h : strLtAux [] cs = false) :
    cs = [] := by
  cases cs with
  | nil => rfl
  | cons a t => simp [strLtAux] at h

lemma strLtAux_trans :
    ∀ (a b c : List Char), strLtAux a b = true → strLtAux b c = true →
      strLtAux a c = true := by
  intro a
  induction a with
  | nil =>
    intro b c hab hbc
    cases b with
    | nil => simp [strLtAux] at hab
    | cons bh bt =>
      cases c with
      | nil => simp [strLtAux] at hbc
      | cons ch ct => simp [strLtAux]
  | cons ah at' ih =>
    intro b c hab hbc
    cases b with
    | nil => simp [strLtAux] at hab
    | cons bh bt =>
      cases c with
      | nil => simp [strLtAux] at hbc
      | cons ch ct =>
        by_cases h1 : ah.toNat < bh.toNat <;> by_cases h2 : bh.toNat < ch.toNat <;>
          by_cases h3 : ah.toNat = bh.toNat <;> by_cases h4 : bh.toNat = ch.toNat <;>
          simp [strLtAux, h1, h2, h3, h4] at hab hbc ⊢ <;>
          first
          | omega
          | exact ih bt ct hab hbc

lemma strLt_self (s : String) : strLt s s = false :=
  strLtAux_irrefl s.data

lemma strLt_nil_right (s : String) : strLt s "" = false :=
  strLtAux_nil_right s.data

lemma strLt_nil_left {s : String} (h : strLt "" s = false) : s = "" := by
  obtain ⟨l⟩ := s
  have : l = [] := strLtAux_nil_left h
  rw [this]

lemma strLt_trans {a b c : String} (h1 : strLt a b = true)
    (h2 : strLt b c = true) : strLt a c = true :=
  strLtAux_trans a.data b.data c.data h1 h2

lemma latestStep_not_lt (acc : String) (kv : String × List ℚ) :
    strLt (latestStep acc kv) kv.1 = false := by
  unfold latestStep
  by_cases hc : acc = "" ∨ strLt acc kv.1 = true
  · rw [if_pos hc]; exact strLt_self kv.1
  · rw [if_neg hc]
    push_neg at hc
    simpa using hc.2

lemma fold_pres_not_lt {k : String} :
    ∀ (l : List (String × List ℚ)) (acc : String), strLt acc k = false →
      strLt (l.foldl latestStep acc) k = false := by
  intro l
  induction l with
  | nil => intro acc h; exact h
  | cons kv t ih =>
    intro acc h
    apply ih
    unfold latestStep
    by_cases hc : acc = "" ∨ strLt acc kv.1 = true
    · rw [if_pos hc]
      rcases hc with hc | hc
      · subst hc
        rw [strLt_nil_left h]
        exact strLt_nil_right kv.1
      · cases hkv : strLt kv.1 k with
        | false => rfl
        | true => rw [strLt_trans hc hkv] at h; exact h
    · rw [if_neg hc]; exact h

lemma latest_not_lt (obs : List (String × List ℚ)) :
    ∀ kv ∈ obs, strLt (latestObsKey obs) kv.1 = false := by
  intro kv hkv
  obtain ⟨l1, l2, rfl⟩ := List.mem_iff_append.mp hkv
  unfold latestObsKey
  rw [List.foldl_append]
  show strLt (List.foldl latestStep (latestStep (List.foldl latestStep "" l1) kv) l2) kv.1 = false
  exact fold_pres_not_lt l2 _ (latestStep_not_lt _ kv)

lemma fold_latest_mem :
    ∀ (l : List (String × List ℚ)) (acc : String),
      l.foldl latestStep acc = acc ∨ ∃ vs, (l.foldl latestStep acc, vs) ∈ l := by
  intro l
  induction l with
  | nil => intro acc; exact Or.inl rfl
  | cons kv t ih =>
    intro acc
    rw [List.foldl_cons]
    rcases ih (latestStep acc kv) with h | ⟨vs, hm⟩
    · rw [h]
      by_cases hc : acc = "" ∨ strLt acc kv.1 = true
      · have hs : latestStep acc kv = kv.1 := by unfold latestStep; exact if_pos hc
        refine Or.inr ⟨kv.2, ?_⟩
        rw [hs]
        exact List.mem_cons_self kv t
      · have hs : latestStep acc kv = acc := by unfold latestStep; exact if_neg hc
        rw [hs]
        exact Or.inl rfl
    · exact Or.inr ⟨vs, List.mem_cons_of_mem kv hm⟩

lemma latest_mem (obs : List (String × List ℚ)) (h : obs ≠ []) :
    ∃ vs, (latestObsKey obs, vs) ∈ obs := by
  cases obs with
  | nil => exact absurd rfl h
  | cons kv t =>
    have hstep : latestStep "" kv = kv.1 := if_pos (Or.inl rfl)
    unfold latestObsKey
    show ∃ vs, (List.foldl latestStep (latestStep "" kv) t, vs) ∈ kv :: t
    rcases fold_latest_mem t (latestStep "" kv) with heq | ⟨vs, hm⟩
    · refine ⟨kv.2, ?_⟩
      rw [heq, hstep]
      exact List.mem_cons_self kv t
    · exact ⟨vs, List.mem_cons_of_mem kv hm⟩

/-- C7: for every non-empty observation map, the selected key is the
lexicographically greatest observation key (it is one of the keys and no
key compares greater), and the rate the fetch returns is the first
value of that observation's list; on the keys 2025-09, 2025-10 and
2025-11 the selected key is 2025-11. -/
theorem ecb_latest_observation :
    ∀ (obs : List (String × List ℚ)), obs ≠ [] →
      ((∃ vs, (latestObsKey obs, vs) ∈ obs)
    ∧ (∀ kv ∈ obs, strLt (latestObsKey obs) kv.1 = false)
    ∧ (∀ (now : GoDate) (v : ℚ) (vs : List ℚ),
         findKey obs (latestObsKey obs) = some (v :: vs) →
         FetchRateFromECB "3M" (mkECBResp obs []) now = .ok (v, now))
    ∧ latestObsKey demoObs = "2025-11"
    ∧ FetchRateFromECB "3M" (mkECBResp demoObs []) demoNow
        = .ok (mkRat 31 10, demoNow)) := by
  intro obs h
  refine ⟨latest_mem obs h, latest_not_lt obs, ?_, by decide, by decide⟩
  intro now v vs hfind
  have hempty : obs.isEmpty = false := by
    cases obs with
    | nil => exact absurd rfl h
    | cons a t => rfl
  have hmat : findKey ecbMaturities "3M" = some "3MD_" := by decide
  simp only [FetchRateFromECB, mkECBResp, hmat]
  have hser : findKey [(ecbSeriesKey, ECBSeries.mk obs)] ecbSeriesKey
      = some (ECBSeries.mk obs) := by
    simp [findKey]
  simp only [hser, hempty, hfind]
  rfl

/-- Concrete instance of `ecb_latest_observation` on the sample
observation map. -/
theorem ecb_latest_observation_witness :
    FetchRateFromECB "3M" (mkECBResp demoObs []) demoNow
      = .ok (mkRat 31 10, demoNow) := by
  exact (ecb_latest_observation demoObs (by decide)).2.2.1 demoNow (mkRat 31 10) []
    (by decide)

/-! ## Claim C8: the publication date of an ECB fetch -/

lemma fetch_demo_reduces (dims : List ECBDimension) (now : GoDate) :
    FetchRateFromECB "3M" (mkECBResp demoObs dims) now
      = .ok (mkRat 31 10,
          match dims with
          | [] => now
          | timeDim :: _ =>
            match timeDim.values.getLast? with
            | none => now
            | some dv =>
              match parseYearMonth dv.id with
              | none => now
              | some (y, m) => lastDayOfMonthDate y m) := by
  have hmat : findKey ecbMaturities "3M" = some "3MD_" := by decide
  have hser : findKey [(ecbSeriesKey, ECBSeries.mk demoObs)] ecbSeriesKey
      = some (ECBSeries.mk demoObs) := by simp [findKey]
  have hempty : demoObs.isEmpty = false := by decide
  have hfind : (findKey demoObs (latestObsKey demoObs)).getD []
      = [mkRat 31 10] := by decide
  simp only [FetchRateFromECB, mkECBResp, hmat, hser, hempty, hfind]
  rfl

/-- C8: when the dimension metadata carries at least one period label,
the publication date is the last label parsed as a year-month and
normalized to the last day of that month (November gives the 30th, a
December label the 31st of the same year); when the metadata is absent,
empty, or its last label does not parse, the publication date is the
wall-clock time and the fetch still succeeds. -/
theorem ecb_publication_date :
    ∀ (ids : List String) (s : String) (y : Int) (m : Nat) (now : GoDate),
      (ids.getLast? = some s → parseYearMonth s = some (y, m) →
        FetchRateFromECB "3M" (mkECBResp demoObs [mkDim ids]) now
          = .ok (mkRat 31 10, lastDayOfMonthDate y m))
    ∧ (ids.getLast? = some s → parseYearMonth s = none →
        FetchRateFromECB "3M" (mkECBResp demoObs [mkDim ids]) now
          = .ok (mkRat 31 10, now))
    ∧ (ids = [] →
        FetchRateFromECB "3M" (mkECBResp demoObs [mkDim ids]) now
          = .ok (mkRat 31 10, now))
    ∧ FetchRateFromECB "3M" (mkECBResp demoObs []) now = .ok (mkRat 31 10, now)
    ∧ parseYearMonth "2025-11" = some (2025, 11)
    ∧ lastDayOfMonthDate 2025 11 = ⟨2025, 11, 30⟩
    ∧ lastDayOfMonthDate 2025 12 = ⟨2025, 12, 31⟩ := by
  intro ids s y m now
  have hlast : ∀ (l : List String), (l.map ECBDimValue.mk).getLast? = l.getLast?.map ECBDimValue.mk :=
    fun l => List.getLast?_map ECBDimValue.mk l
  refine ⟨?_, ?_, ?_, ?_, by decide, by decide, by decide⟩
  · intro hl hp
    rw [fetch_demo_reduces]
    simp [mkDim, hlast ids, hl, hp]
  · intro hl hp
    rw [fetch_demo_reduces]
    simp [mkDim, hlast ids, hl, hp]
  · intro hnil
    subst hnil
    rw [fetch_demo_reduces]
    simp [mkDim]
  · rw [fetch_demo_reduces]

/-- Concrete instance of `ecb_publication_date`: labels ending in
2025-11 give November 30, 2025 as the publication date. -/
theorem ecb_publication_date_witness :
    FetchRateFromECB "3M" (mkECBResp demoObs [mkDim ["2025-10", "2025-11"]]) demoNow
      = .ok (mkRat 31 10, ⟨2025, 11, 30⟩) := by
  exact ((ecb_publication_date ["2025-10", "2025-11"] "2025-11" 2025 11 demoNow).1
    (by decide) (by decide)).trans (by decide)

/-! ## Claim C9: which adapters a pass invokes -/

lemma updateECBMetrics_called (fe : FetchFn) (de : String → ℚ) (m : String)
    (st : MetricsState) :
    (updateECBMetrics fe de m st).2 = (findKey ecbMaturities m).isSome := by
  cases hk : findKey ecbMaturities m with
  | none => simp [updateECBMetrics, hk]
  | some c =>
    cases hfe : fe m with
    | error e => simp [updateECBMetrics, hk, hfe]
    | ok v => obtain ⟨r, p⟩ := v; simp [updateECBMetrics, hk, hfe]

lemma runPass_trace (fw : FetchFn) (dw : String → ℚ) (fe : FetchFn)
    (de : String → ℚ) (enabled : Bool) :
    ∀ (ms : List String) (st : MetricsState),
      (runPass fw dw fe de enabled ms st).2 =
        ms.flatMap (fun m => (Source.web, m) ::
          (if enabled && (findKey ecbMaturities m).isSome then
            [(Source.ecb, m)] else [])) := by
  intro ms
  induction ms with
  | nil => intro st; rfl
  | cons m rest ih =>
    intro st
    rw [List.flatMap_cons]
    cases enabled with
    | false =>
      simp only [runPass, Bool.false_and, if_neg (by simp : ¬ (false = true))]
      rw [ih]
      rfl
    | true =>
      simp only [runPass, if_true, Bool.true_and]
      rw [ih, updateECBMetrics_called]
      rfl

/-- C9: a pass invokes the web adapter for every supported maturity,
invokes the ECB adapter exactly for the supported maturities that are
both ECB-enabled and present in the ECB lookup table, and the maturity
1W (supported by the web source, absent from the table) is skipped
without its ECB gauges being touched. -/
theorem updateMetrics_source_invocation :
    ∀ (fw fe : FetchFn) (dw de : String → ℚ) (enabled : Bool) (st : MetricsState),
      (∀ m ∈ GetSupportedMaturities,
          (Source.web, m) ∈ (UpdateMetrics fw dw fe de enabled st).2)
    ∧ (∀ m : String, (Source.ecb, m) ∈ (UpdateMetrics fw dw fe de enabled st).2 ↔
          (enabled = true ∧ m ∈ GetSupportedMaturities
            ∧ (findKey ecbMaturities m).isSome = true))
    ∧ ("1W" ∈ GetSupportedMaturities ∧ findKey ecbMaturities "1W" = none)
    ∧ ((UpdateMetrics fw dw fe de enabled st).1.rate "1W" = st.rate "1W"
      ∧ (UpdateMetrics fw dw fe de enabled st).1.pubDate "1W" = st.pubDate "1W"
      ∧ (UpdateMetrics fw dw fe de enabled st).1.scrapeSuccess "1W" = st.scrapeSuccess "1W"
      ∧ (UpdateMetrics fw dw fe de enabled st).1.scrapeDuration "1W" = st.scrapeDuration "1W") := by
  intro fw fe dw de enabled st
  have htr := runPass_trace fw dw fe de enabled GetSupportedMaturities st
  refine ⟨?_, ?_, ⟨by decide, by decide⟩, ?_⟩
  · intro m hm
    rw [UpdateMetrics, htr]
    exact List.mem_flatMap.mpr ⟨m, hm, List.mem_cons_self _ _⟩
  · intro m
    rw [UpdateMetrics, htr]
    rw [List.mem_flatMap]
    constructor
    · rintro ⟨b, hb, hmem⟩
      rcases List.mem_cons.mp hmem with hmem | hmem
      · exact absurd hmem (by simp)
      · by_cases hc : (enabled && (findKey ecbMaturities b).isSome) = true
        · rw [if_pos hc] at hmem
          have hmb : m = b := by
            rcases List.mem_cons.mp hmem with hh | hh
            · exact (Prod.mk.injEq _ _ _ _ ▸ hh).2
            · simp at hh
          obtain ⟨hen, hsome⟩ := Bool.and_eq_true_iff.mp hc
          exact ⟨hen, hmb ▸ hb, hmb ▸ hsome⟩
        · rw [if_neg hc] at hmem
          simp at hmem
    · rintro ⟨hen, hm, hsome⟩
      refine ⟨m, hm, List.mem_cons_of_mem _ ?_⟩
      have hc : (enabled && (findKey ecbMaturities m).isSome) = true := by
        rw [hen, hsome]; rfl
      rw [if_pos hc]
      exact List.mem_cons_self _ _
  · have hfr := runPass_ecb_frame fw dw fe de enabled "1W" (by decide)
      GetSupportedMaturities st
    exact hfr

/-- Concrete instance of `updateMetrics_source_invocation`: in an
ECB-enabled pass the web adapter is invoked for 1W while the ECB
adapter is not. -/
theorem updateMetrics_source_invocation_witness :
    (Source.web, "1W")
      ∈ (UpdateMetrics demoFailFetch demoDur demoFailFetch demoDur true initMetrics).2
  ∧ (Source.ecb, "1W")
      ∉ (UpdateMetrics demoFailFetch demoDur demoFailFetch demoDur true initMetrics).2 := by
  have h := updateMetrics_source_invocation demoFailFetch demoFailFetch demoDur demoDur
    true initMetrics
  refine ⟨h.1 "1W" (by decide), fun hmem => ?_⟩
  have hiff := (h.2.1 "1W").mp hmem
  exact absurd hiff.2.2 (by decide)

/-! ## Claim C3: the parseRate failure condition

The claim describes the cleaning step as keeping a minus sign only in
leading position; the code keeps every minus sign, so an input with an
interior minus (such as "5-3") fails in the code although the claim
predicts success.  The counterexample below records this; the theorem
after it proves the amended claim, with the cleaning as the code
performs it and the valid-signed-decimal grammar stated independently
of the parser. -/

lemma dropWhile_head_neg {p : Char → Bool} :
    ∀ (l : List Char) (c : Char) (t : List Char),
      l.dropWhile p = c :: t → p c = false := by
  intro l
  induction l with
  | nil => intro c t h; simp [List.dropWhile] at h
  | cons a as ih =>
    intro c t h
    rw [List.dropWhile_cons] at h
    by_cases hpa : p a = true
    · rw [if_pos hpa] at h; exact ih c t h
    · rw [if_neg hpa] at h
      obtain ⟨rfl, -⟩ := List.cons.inj h
      simpa using hpa

lemma all_digit_count_dot {t : List Char} :
    t.all isDigitCh
      = (t.all (fun c => isDigitCh c || c == '.') && decide (t.count '.' = 0)) := by
  induction t with
  | nil => rfl
  | cons x xs ih =>
    by_cases hx : x = '.'
    · subst hx
      simp [isDigitCh, List.count_cons]
    · simp only [List.all_cons, List.count_cons, if_neg hx, ih]
      cases hdx : isDigitCh x <;> simp [hdx, hx, List.count_cons]

lemma any_of_all_digit {t : List Char} (h : t.all isDigitCh = true) :
    t.any isDigitCh = !t.isEmpty := by
  cases t with
  | nil => rfl
  | cons x xs =>
    simp only [List.all_cons, Bool.and_eq_true] at h
    simp [List.any_cons, h.1]

lemma mantissa_append_dot (ip t : List Char)
    (hip : ∀ x ∈ ip, isDigitCh x = true) :
    mantissaValid (ip ++ '.' :: t)
      = (t.all isDigitCh && (!ip.isEmpty || !t.isEmpty)) := by
  have h0 : (ip ++ '.' :: t).isEmpty = false := by cases ip <;> rfl
  have hipdod : ip.all (fun c => isDigitCh c || c == '.') = true :=
    List.all_eq_true.mpr (fun x hx => by simp [hip x hx])
  have hipcnt : ip.count '.' = 0 :=
    List.count_eq_zero.mpr (fun h => absurd (hip '.' h) (by decide))
  have hipany : ip.any isDigitCh = !ip.isEmpty :=
    any_of_all_digit (List.all_eq_true.mpr hip)
  have hcnt : (ip ++ '.' :: t).count '.' = t.count '.' + 1 := by
    rw [List.count_append, hipcnt, List.count_cons_self]
    omega
  have hdotdod : (isDigitCh '.' || '.' == '.') = true := by decide
  have hdotdig : isDigitCh '.' = false := by decide
  simp only [mantissaValid, h0, hcnt, List.all_append, List.all_cons, List.any_append,
    List.any_cons, hipdod, hipany, hdotdod, hdotdig, Bool.not_false, Bool.true_and,
    Bool.false_or]
  cases hT : t.all isDigitCh with
  | true =>
    have hdod := all_digit_count_dot (t := t)
    rw [hT] at hdod
    have h1 : t.all (fun c => isDigitCh c || c == '.') = true :=
      (Bool.and_eq_true_iff.mp hdod.symm).1
    have h2 : t.count '.' = 0 := by
      have := (Bool.and_eq_true_iff.mp hdod.symm).2
      simpa using this
    have h3 : t.any isDigitCh = !t.isEmpty := any_of_all_digit hT
    simp [h1, h2, h3]
  | false =>
    have hdod := all_digit_count_dot (t := t)
    rw [hT] at hdod
    cases h1 : t.all (fun c => isDigitCh c || c == '.') with
    | false => simp [h1]
    | true =>
      have h2 : t.count '.' ≠ 0 := by
        rw [h1] at hdod
        simpa using hdod.symm
      have h3 : decide (t.count '.' + 1 ≤ 1) = false := by
        simp
        omega
      simp [h1, h3]
      exact fun hc => absurd hc h2

lemma mantissa_all_digits {l : List Char}
    (hall : ∀ x ∈ l, isDigitCh x = true) :
    mantissaValid l = !l.isEmpty := by
  cases l with
  | nil => rfl
  | cons a xs =>
    have hdot : ('.' : Char) ∉ a :: xs := fun h => absurd (hall '.' h) (by decide)
    have hcount : List.count '.' (a :: xs) = 0 := List.count_eq_zero.mpr hdot
    have hdod : (a :: xs).all (fun c => isDigitCh c || c == '.') = true :=
      List.all_eq_true.mpr (fun x hx => by simp [hall x hx])
    have hany : (a :: xs).any isDigitCh = true :=
      List.any_eq_true.mpr ⟨a, List.mem_cons_self a xs, hall a (List.mem_cons_self a xs)⟩
    simp [mantissaValid, hcount, hdod, hany]

lemma parseUnsigned?_isSome (cs : List Char) :
    (parseUnsigned? cs).isSome = mantissaValid cs := by
  have hdec : cs.takeWhile isDigitCh ++ cs.dropWhile isDigitCh = cs :=
    List.takeWhile_append_dropWhile isDigitCh cs
  have htake : ∀ x ∈ cs.takeWhile isDigitCh, isDigitCh x = true :=
    fun x hx => List.mem_takeWhile_imp hx
  cases hrest : cs.dropWhile isDigitCh with
  | nil =>
    have hcs : cs = cs.takeWhile isDigitCh := by
      nth_rewrite 1 [← hdec]
      rw [hrest, List.append_nil]
    have hall : ∀ x ∈ cs, isDigitCh x = true := by
      intro x hx; exact htake x (hcs ▸ hx)
    have hval : mantissaValid cs = !cs.isEmpty := mantissa_all_digits hall
    simp only [parseUnsigned?, hrest, List.isEmpty_nil, if_true, hval, ← hcs]
    cases hemp : cs.isEmpty with
    | true => simp [hemp]
    | false => simp [hemp]
  | cons c t =>
    have hcd : isDigitCh c = false := dropWhile_head_neg cs c t hrest
    by_cases hcdot : c = '.'
    · subst hcdot
      have hkey : mantissaValid cs
          = (t.all isDigitCh && (!(cs.takeWhile isDigitCh).isEmpty || !t.isEmpty)) := by
        conv_lhs => rw [← hdec, hrest]
        exact mantissa_append_dot _ t htake
      simp only [parseUnsigned?, hrest, hkey]
      cases hcond : (t.all isDigitCh && (!(cs.takeWhile isDigitCh).isEmpty || !t.isEmpty)) with
      | true => simp [hcond]
      | false => simp [hcond]
    · have hmem : c ∈ cs := by
        rw [← hdec, hrest]
        exact List.mem_append_right _ (List.mem_cons_self c t)
      have hallf : cs.all (fun x => isDigitCh x || x == '.') = false := by
        cases hA : cs.all (fun x => isDigitCh x || x == '.') with
        | false => rfl
        | true =>
          have hcc := List.all_eq_true.mp hA c hmem
          simp [hcd, hcdot] at hcc
      have hval : mantissaValid cs = false := by
        simp [mantissaValid, hallf]
      have hne : ((c :: t).head? = some '.') = False := by simp [hcdot]
      simp only [parseUnsigned?, hrest, hval, List.head?_cons, hne]
      simp
      exact fun hc => absurd hc hcdot

lemma parseDecimal?_isSome (cs : List Char) :
    (parseDecimal? cs).isSome = validSignedDecimal cs := by
  unfold parseDecimal? validSignedDecimal
  by_cases h : cs.head? = some '-'
  · rw [if_pos h, if_pos h]
    have hu := parseUnsigned?_isSome cs.tail
    cases hpu : parseUnsigned? cs.tail with
    | none => rw [hpu] at hu; simpa using hu.symm
    | some q => rw [hpu] at hu; simpa using hu.symm
  · rw [if_neg h, if_neg h]
    exact parseUnsigned?_isSome cs

/-- C3 counterexample: the claim says the cleaning keeps only a leading
minus and that parsing fails exactly when the residual is empty or not
a valid signed decimal; on "5-3" the claim-side residual is the valid
nonempty decimal "53", yet `parseRate` fails, because the code keeps the
interior minus. -/
theorem parseRate_claim_counterexample :
    exceptOk (parseRate "5-3") = false
  ∧ claimResidual "5-3" = ['5', '3']
  ∧ claimResidual "5-3" ≠ []
  ∧ validSignedDecimal (claimResidual "5-3") = true
  ∧ rateCleaned "5-3" = ['5', '-', '3'] := by
  refine ⟨by decide, by decide, by decide, by decide, by decide⟩

/-- C3 (amended): `parseRate` strips percent signs and whitespace,
normalizes decimal commas to points, keeps every character that is a
digit, a dot or a minus sign (a minus is kept at any position, not only
a leading one), and succeeds exactly when the residual is non-empty and
is a valid signed decimal (an optional leading minus, then digits with
at most one dot and at least one digit); negative rates and zero are
accepted. -/
theorem parseRate_residual_grammar :
    ∀ s : String,
      ((∃ q, parseRate s = .ok q) ↔
        (rateCleaned s ≠ [] ∧ validSignedDecimal (rateCleaned s) = true))
    ∧ parseRate "-0.123 %" = .ok (mkRat (-123) 1000)
    ∧ mkRat (-123) 1000 < 0
    ∧ parseRate "0.000 %" = .ok (mkRat 0 1000)
    ∧ mkRat 0 1000 = 0 := by
  intro s
  refine ⟨?_, by decide, ?_, by decide, ?_⟩
  · by_cases hemp : (rateCleaned s).isEmpty = true
    · have hnil : rateCleaned s = [] := List.isEmpty_iff.mp hemp
      constructor
      · rintro ⟨q, hq⟩
        simp only [parseRate, hemp, if_true] at hq
        exact absurd hq (by simp)
      · rintro ⟨hne, -⟩
        exact absurd hnil hne
    · have hempF : (rateCleaned s).isEmpty = false := by
        cases hB : (rateCleaned s).isEmpty with
        | true => exact absurd hB hemp
        | false => rfl
      have hbool := parseDecimal?_isSome (rateCleaned s)
      have hne : rateCleaned s ≠ [] := by
        intro h
        rw [h] at hempF
        simp at hempF
      cases hp : parseDecimal? (rateCleaned s) with
      | some q =>
        rw [hp] at hbool
        constructor
        · intro _
          exact ⟨hne, hbool.symm⟩
        · intro _
          refine ⟨q, ?_⟩
          simp only [parseRate, hempF, hp]
          rfl
      | none =>
        rw [hp] at hbool
        constructor
        · rintro ⟨q, hq⟩
          simp only [parseRate, hempF, hp] at hq
          exact absurd hq (by simp)
        · rintro ⟨-, hv⟩
          rw [← hbool] at hv
          exact absurd hv (by simp)
  · rw [Rat.mkRat_eq_div]; norm_num
  · rw [Rat.mkRat_eq_div]; norm_num

/-- Concrete instance of `parseRate_residual_grammar`: the residual of
"2.524 %" is a non-empty valid signed decimal. -/
theorem parseRate_residual_grammar_witness :
    rateCleaned "2.524 %" ≠ []
  ∧ validSignedDecimal (rateCleaned "2.524 %") = true :=
  (parseRate_residual_grammar "2.524 %").1.mp ⟨mkRat 2524 1000, by decide⟩

end Euribor
